import Mathlib

/-!
Shallow embedding of the go-env repository (package env): the typed
environment-variable parse engine `FromEnvOrDefault` (parser.go) together
with its option set and option constructors (options.go).

Modelling conventions:
* Go strings are Lean `String`s (sequences of code points; all inputs the
  claims touch are ASCII, where Go byte-wise and code-point-wise
  processing agree).
* Machine integers are `Nat`/`Int` with explicit range checks mirroring
  strconv (`int`/`int64` are 64-bit signed, `uint`/`uint64` are 64-bit
  unsigned, as on the standard 64-bit platforms the library targets).
* Fallible Go calls return `Except Err _`; the Go `(dest T, err error)`
  result pair becomes `GoVal × Option Err`.
* Go error values built with fmt.Errorf wrapping are modelled as a
  structured inductive `Err`; each constructor corresponds to one format
  string in the source.
* The stdlib collaborators whose internals the claims never inspect
  (strconv.ParseFloat, time.ParseDuration, time.Parse, url.Parse) are
  abstract functions bundled in `Foreign`; theorems quantify over them.
  url.Parse returns a pointer (`*url.URL`), which the embedding keeps
  visible via the distinct value constructor `GoVal.urlPtr`.
* The package-global `defaultParseOptions.customMarshallers` map is a Go
  reference type; to make sharing and mutation observable, marshaller
  maps live in an explicit `Heap` addressed by `Nat`, and the option set
  stores an `Option Nat` address (`none` is Go nil).
-/

namespace GoEnv

/-- The scalar kinds appearing in the built-in type switch of
FromEnvOrDefault (parser.go, switch over any(dest)). -/
inductive GoKind where
  | string
  | bool
  | int
  | uint
  | int64
  | uint64
  | float64
  | duration
  | time
  | url
deriving DecidableEq

/-- Go (reflect) types as far as the engine distinguishes them: the
built-in scalars, slices of those scalars, pointer types (only *url.URL
arises), and named types outside the built-in set. -/
inductive GoType where
  | scalar (k : GoKind)
  | slice (k : GoKind)
  | ptrTo (k : GoKind)
  | named (s : String)
deriving DecidableEq

/-- A scalar Go value of one of the built-in kinds. float64 values are
carried as their 64-bit pattern, time.Time and url.URL values as opaque
representations produced by the abstract stdlib parsers. -/
inductive ScalarV where
  | str (s : String)
  | boolV (b : Bool)
  | intV (n : Int)
  | uintV (n : Nat)
  | int64V (n : Int)
  | uint64V (n : Nat)
  | floatV (bits : Nat)
  | durationV (ns : Int)
  | timeV (t : Nat)
  | urlV (u : Nat)
deriving DecidableEq

/-- A Go value as stored in an interface (the any-typed v of the engine):
a scalar, a *url.URL pointer (what url.Parse returns), a nil pointer, a
slice with its element kind, or a value of a named non-built-in type. -/
inductive GoVal where
  | scalar (v : ScalarV)
  | urlPtr (u : Nat)
  | nilPtr (k : GoKind)
  | sliceV (k : GoKind) (elems : List ScalarV)
  | customV (name : String) (payload : String)
deriving DecidableEq

/-- The two strconv.NumError causes. -/
inductive NumErr where
  | invalidSyn
  | outOfRange
deriving DecidableEq

/-- Structured model of the error values the engine can produce; each
wrapping constructor corresponds to one fmt.Errorf format string in
parser.go or an errors.New message in options.go. -/
inductive Err where
  | msg (s : String)
  | numError (fn : String) (num : String) (k : NumErr)
  | optionWrap (inner : Err)
  | marshFailed (envVar : String) (tyName : String) (inner : Err)
  | parseFailed (envVar : String) (tyName : String) (inner : Err)
  | castFailed (envVar : String) (tyName : String)
  | unsupportedType (tyName : String) (envVar : String)
  | itemFailed (item : String) (pos : Nat) (inner : Err)
deriving DecidableEq

/-- Kind of a scalar value (its dynamic type tag). -/
def ScalarV.kind : ScalarV → GoKind
  | .str _ => .string
  | .boolV _ => .bool
  | .intV _ => .int
  | .uintV _ => .uint
  | .int64V _ => .int64
  | .uint64V _ => .uint64
  | .floatV _ => .float64
  | .durationV _ => .duration
  | .timeV _ => .time
  | .urlV _ => .url

/-- Dynamic type of an interface value, as consulted by the type
assertion v.(T) at the end of FromEnvOrDefault. -/
def GoVal.typeOf : GoVal → GoType
  | .scalar v => .scalar v.kind
  | .urlPtr _ => .ptrTo .url
  | .nilPtr k => .ptrTo k
  | .sliceV k _ => .slice k
  | .customV n _ => .named n

/-- Rendering of a type by the %T verb, used inside error messages. -/
def kindName : GoKind → String
  | .string => "string"
  | .bool => "bool"
  | .int => "int"
  | .uint => "uint"
  | .int64 => "int64"
  | .uint64 => "uint64"
  | .float64 => "float64"
  | .duration => "time.Duration"
  | .time => "time.Time"
  | .url => "url.URL"

/-- Rendering of a GoType by the %T verb. -/
def typeName : GoType → String
  | .scalar k => kindName k
  | .slice k => "[]" ++ kindName k
  | .ptrTo k => "*" ++ kindName k
  | .named s => s

/-- Zero value of each scalar kind. -/
def zeroScalar : GoKind → ScalarV
  | .string => .str ""
  | .bool => .boolV false
  | .int => .intV 0
  | .uint => .uintV 0
  | .int64 => .int64V 0
  | .uint64 => .uint64V 0
  | .float64 => .floatV 0
  | .duration => .durationV 0
  | .time => .timeV 0
  | .url => .urlV 0

/-- Zero value of each type: what the named result dest holds on the
error returns of FromEnvOrDefault (the nil slice of Go is modelled as
the empty slice; no claim distinguishes the two). -/
def zeroOf : GoType → GoVal
  | .scalar k => .scalar (zeroScalar k)
  | .slice k => .sliceV k []
  | .ptrTo k => .nilPtr k
  | .named s => .customV s ""

/-- Decimal digit test on a character, as in strconv (0-9 only; base 10
with a given bit size admits neither underscores nor other digits). -/
def charIsDigit (c : Char) : Bool :=
  decide (48 ≤ c.toNat ∧ c.toNat ≤ 57)

/-- Numeric value of a decimal digit character. -/
def digitVal (c : Char) : Nat := c.toNat - 48

/-- Value of a string of decimal digits, most significant first. -/
def decValue (cs : List Char) : Nat :=
  cs.foldl (fun acc c => acc * 10 + digitVal c) 0

/-- Largest uint64 value, 2^64 - 1. -/
def uint64Max : Nat := 18446744073709551615

/-- Largest int64 value, 2^63 - 1. -/
def int64Max : Nat := 9223372036854775807

/-- Absolute value of the smallest int64, 2^63. -/
def int64MinAbs : Nat := 9223372036854775808

/-- Model of strconv.ParseUint(s, 10, 64): no sign is permitted, every
character must be a decimal digit, and values above 2^64 - 1 fail with a
range error. fn is the Func field of the NumError ("ParseUint"). -/
def goParseUint (fn : String) (s : String) : Except Err Nat :=
  let cs := s.toList
  if cs.isEmpty then .error (.numError fn s .invalidSyn)
  else if cs.all charIsDigit then
    let n := decValue cs
    if n ≤ uint64Max then .ok n else .error (.numError fn s .outOfRange)
  else .error (.numError fn s .invalidSyn)

/-- Model of strconv.ParseInt(s, 10, 64): one optional sign followed by
at least one decimal digit; values outside the int64 range fail with a
range error. fn is the Func field of the NumError. -/
def goParseInt (fn : String) (s : String) : Except Err Int :=
  match s.toList with
  | [] => .error (.numError fn s .invalidSyn)
  | c :: rest =>
    let neg : Bool := c = '-'
    let digs : List Char := if c = '-' ∨ c = '+' then rest else s.toList
    if digs.isEmpty then .error (.numError fn s .invalidSyn)
    else if digs.all charIsDigit then
      let n := decValue digs
      if neg then
        if n ≤ int64MinAbs then .ok (-(n : Int))
        else .error (.numError fn s .outOfRange)
      else
        if n ≤ int64Max then .ok (n : Int)
        else .error (.numError fn s .outOfRange)
    else .error (.numError fn s .invalidSyn)

/-- Model of strconv.Atoi on a 64-bit platform: ParseInt semantics with
Func = "Atoi" in the error. -/
def goAtoi (s : String) : Except Err Int := goParseInt "Atoi" s

/-- Model of strconv.ParseBool: exactly the listed tokens. -/
def goParseBool (s : String) : Except Err Bool :=
  match s with
  | "1" => .ok true
  | "t" => .ok true
  | "T" => .ok true
  | "TRUE" => .ok true
  | "true" => .ok true
  | "True" => .ok true
  | "0" => .ok false
  | "f" => .ok false
  | "F" => .ok false
  | "FALSE" => .ok false
  | "false" => .ok false
  | "False" => .ok false
  | _ => .error (.numError "ParseBool" s .invalidSyn)

/-- White-space test of unicode.IsSpace, as used by strings.TrimSpace:
the Latin-1 white space characters plus the Unicode White_Space code
points. -/
def isGoSpace (c : Char) : Bool :=
  c.toNat = 9 || c.toNat = 10 || c.toNat = 11 || c.toNat = 12 ||
  c.toNat = 13 || c.toNat = 32 || c.toNat = 133 || c.toNat = 160 ||
  c.toNat = 5760 || (decide (8192 ≤ c.toNat ∧ c.toNat ≤ 8202)) ||
  c.toNat = 8232 || c.toNat = 8233 || c.toNat = 8239 || c.toNat = 8287 ||
  c.toNat = 12288

/-- Dropping white space from both ends of a character list. -/
def trimChars {α : Type} (p : α → Bool) (l : List α) : List α :=
  ((l.dropWhile p).reverse.dropWhile p).reverse

/-- Model of strings.TrimSpace: drop white space from both ends. -/
def goTrimSpace (s : String) : String :=
  ⟨trimChars isGoSpace s.toList⟩

/-- Whether sep occurs at the start of l. -/
def leadsWith : List Char → List Char → Bool
  | [], _ => true
  | _ :: _, [] => false
  | a :: as, b :: bs => a = b && leadsWith as bs

/-- Worker for goSplit: scan l left to right, cutting at each
non-overlapping occurrence of sep (acc holds the current segment,
reversed). Fuel bounds the recursion; l shrinks by at least one
character per step, so fuel = length + 1 is always enough. -/
def splitCharsAux (sep : List Char) : Nat → List Char → List Char → List (List Char)
  | 0, acc, _ => [acc.reverse]
  | _ + 1, acc, [] => [acc.reverse]
  | fuel + 1, acc, c :: rest =>
    if leadsWith sep (c :: rest) then
      acc.reverse :: splitCharsAux sep fuel [] (List.drop sep.length (c :: rest))
    else
      splitCharsAux sep fuel (c :: acc) rest

/-- Model of strings.Split(s, sep): for non-empty sep, the segments
around each non-overlapping occurrence of sep, scanning left to right;
for empty sep, one segment per character. -/
def goSplit (s sep : String) : List String :=
  if sep = "" then s.toList.map (fun c => ⟨[c]⟩)
  else (splitCharsAux sep.toList (s.toList.length + 1) [] s.toList).map (fun l => ⟨l⟩)

/-- Model of splitAndTrim (parser.go): split on sep, then TrimSpace each
segment in place. -/
def splitAndTrim (s sep : String) : List String :=
  (goSplit s sep).map goTrimSpace

/-- The stdlib parsers the engine calls but whose internals no claim
inspects, bundled as an abstract collaborator: strconv.ParseFloat
(result as a 64-bit pattern), time.ParseDuration (nanoseconds),
time.Parse (layout first, opaque instant), and url.Parse (opaque
structured URL; the engine wraps the result as a pointer, mirroring the
*url.URL return type). -/
structure Foreign where
  parseFloat : String → Except Err Nat
  parseDuration : String → Except Err Int
  parseTime : String → String → Except Err Nat
  parseURL : String → Except Err Nat

/-- A custom marshaller: the single method UnmarshalEnv(value string)
(any, error) of options.go. -/
def Marshaller : Type := String → Except Err GoVal

/-- The contents of a customMarshallers map: reflect.Type keys to
marshallers (function-as-map; absent key gives none). -/
def MarshMap : Type := GoType → Option Marshaller

/-- The map with no entries (make(map[reflect.Type]CustomMarshaller)). -/
def emptyMarshMap : MarshMap := fun _ => none

/-- Map insertion m[t] = mr. -/
def mapInsert (m : MarshMap) (t : GoType) (mr : Marshaller) : MarshMap :=
  fun t' => if t' = t then some mr else m t'

/-- The heap of live marshaller maps: Go map values are references, so
the option set stores an address and the contents live here. next is
the next fresh address. -/
structure Heap where
  store : Nat → MarshMap
  next : Nat

/-- Overwrite the map at address a. -/
def Heap.write (h : Heap) (a : Nat) (m : MarshMap) : Heap :=
  ⟨fun b => if b = a then m else h.store b, h.next⟩

/-- Allocate a fresh map reference holding contents m. -/
def Heap.alloc (h : Heap) (m : MarshMap) : Nat × Heap :=
  (h.next, ⟨fun b => if b = h.next then m else h.store b, h.next + 1⟩)

/-- The envParseOpts struct of options.go. customMarshallers holds a
heap address (none models the nil map). -/
structure EnvParseOpts where
  envLoader : String → String
  separator : String
  defaultOnError : Bool
  timeLayout : String
  sensitive : Bool
  customMarshallers : Option Nat

/-- The option constructors of options.go, as data: applying one is
applyOpt. Option-typed arguments model the nil checks of the source
(WithCustomMarshallerFunc reduces to WithCustomMarshaller and is not
separately modelled). -/
inductive EnvOpt where
  | withEnvLoader (l : Option (String → String))
  | withEnvParseSeparator (sep : String)
  | withFallbackToDefaultOnError (b : Bool)
  | withTimeLayout (layout : String)
  | withSensitive (b : Bool)
  | withCustomMarshaller (t : GoType) (m : Option Marshaller)

/-- Application of one option to the option set (options.go): each
constructor validates its argument, then mutates the set (and, for
WithCustomMarshaller, the marshaller map on the heap, allocating a
fresh map when the set holds the nil map). -/
def applyOpt (opt : EnvOpt) (o : EnvParseOpts) (h : Heap) :
    Except Err (EnvParseOpts × Heap) :=
  match opt with
  | .withEnvLoader none => .error (.msg "env loader function cannot be nil")
  | .withEnvLoader (some l) => .ok ({ o with envLoader := l }, h)
  | .withEnvParseSeparator sep =>
    if sep = "" then .error (.msg "separator cannot be empty string")
    else .ok ({ o with separator := sep }, h)
  | .withFallbackToDefaultOnError b => .ok ({ o with defaultOnError := b }, h)
  | .withTimeLayout layout =>
    if layout = "" then .error (.msg "time layout cannot be empty string")
    else .ok ({ o with timeLayout := layout }, h)
  | .withSensitive b => .ok ({ o with sensitive := b }, h)
  | .withCustomMarshaller _ none => .error (.msg "custom marshaller cannot be nil")
  | .withCustomMarshaller t (some m) =>
    match o.customMarshallers with
    | none =>
      let ah := h.alloc (mapInsert emptyMarshMap t m)
      .ok ({ o with customMarshallers := some ah.1 }, ah.2)
    | some a => .ok (o, h.write a (mapInsert (h.store a) t m))

/-- The option loop of FromEnvOrDefault: apply the options in order,
stopping at (and returning) the first failure. -/
def applyOpts : List EnvOpt → EnvParseOpts → Heap → Option Err × EnvParseOpts × Heap
  | [], o, h => (none, o, h)
  | opt :: rest, o, h =>
    match applyOpt opt o h with
    | .error e => (some e, o, h)
    | .ok (o', h') => applyOpts rest o' h'

/-- Marshaller lookup parseOpts.customMarshallers[destType]: lookup in
a nil map gives none. -/
def lookupMarshaller (o : EnvParseOpts) (h : Heap) (t : GoType) : Option Marshaller :=
  match o.customMarshallers with
  | none => none
  | some a => h.store a t

/-- The per-element parse of the non-string slice branches of the type
switch: the same scalar conversion as the matching scalar branch, with
the []url.URL branch dereferencing the parsed pointer (vs = append(vs,
*parsed)). -/
def elemParse (fp : Foreign) (po : EnvParseOpts) : GoKind → String → Except Err ScalarV
  | .string, s => .ok (.str s)
  | .bool, s => (goParseBool s).map .boolV
  | .int, s => (goAtoi s).map .intV
  | .uint, s => (goParseUint "ParseUint" s).map .uintV
  | .int64, s => (goParseInt "ParseInt" s).map .int64V
  | .uint64, s => (goParseUint "ParseUint" s).map .uint64V
  | .float64, s => (fp.parseFloat s).map .floatV
  | .duration, s => (fp.parseDuration s).map .durationV
  | .time, s => (fp.parseTime po.timeLayout s).map .timeV
  | .url, s => (fp.parseURL s).map .urlV

/-- The slice loop of the type switch, indexed from i: on the first
failing segment, stop with the item error naming the segment value and
its position (the partially built vs is discarded by the caller on the
error path). -/
def parseSeqAux (p : String → Except Err ScalarV) : Nat → List String → Except Err (List ScalarV)
  | _, [] => .ok []
  | i, a :: rest =>
    match p a with
    | .error e => .error (.itemFailed a i e)
    | .ok v =>
      match parseSeqAux p (i + 1) rest with
      | .error e => .error e
      | .ok vs => .ok (v :: vs)

/-- Outcome of the built-in type switch: v with err == nil, v with err
set (subject to the fallback policy), or the default branch that
returns an unsupported-type error directly. -/
inductive BuiltinOutcome where
  | value (v : GoVal)
  | failed (e : Err)
  | unsupported

/-- Lift an Except-producing scalar branch into a BuiltinOutcome. -/
def outcomeOf (r : Except Err GoVal) : BuiltinOutcome :=
  match r with
  | .ok v => .value v
  | .error e => .failed e

/-- The built-in type switch of FromEnvOrDefault (parser.go): scalar
branches convert envStr directly (the url.URL branch storing the
pointer url.Parse returns); []string splits without trimming; every
other slice branch runs the loop over splitAndTrim; any other type
falls to the default branch. -/
def builtinParse (fp : Foreign) (po : EnvParseOpts) (T : GoType) (envStr : String) :
    BuiltinOutcome :=
  match T with
  | .scalar .string => .value (.scalar (.str envStr))
  | .scalar .bool => outcomeOf ((goParseBool envStr).map (fun b => .scalar (.boolV b)))
  | .scalar .int => outcomeOf ((goAtoi envStr).map (fun n => .scalar (.intV n)))
  | .scalar .uint =>
    outcomeOf ((goParseUint "ParseUint" envStr).map (fun n => .scalar (.uintV n)))
  | .scalar .int64 =>
    outcomeOf ((goParseInt "ParseInt" envStr).map (fun n => .scalar (.int64V n)))
  | .scalar .uint64 =>
    outcomeOf ((goParseUint "ParseUint" envStr).map (fun n => .scalar (.uint64V n)))
  | .scalar .float64 => outcomeOf ((fp.parseFloat envStr).map (fun x => .scalar (.floatV x)))
  | .scalar .duration =>
    outcomeOf ((fp.parseDuration envStr).map (fun x => .scalar (.durationV x)))
  | .scalar .time =>
    outcomeOf ((fp.parseTime po.timeLayout envStr).map (fun x => .scalar (.timeV x)))
  | .scalar .url => outcomeOf ((fp.parseURL envStr).map (fun u => .urlPtr u))
  | .slice .string => .value (.sliceV .string ((goSplit envStr po.separator).map .str))
  | .slice k =>
    match parseSeqAux (elemParse fp po k) 0 (splitAndTrim envStr po.separator) with
    | .error e => .failed e
    | .ok vs => .value (.sliceV k vs)
  | .ptrTo _ => .unsupported
  | .named _ => .unsupported

/-- The final type assertion dest, ok := v.(T) with its error return
(failure leaves dest the zero value of T). -/
def castResult (T : GoType) (envVar : String) (v : GoVal) (h : Heap) :
    (GoVal × Option Err) × Heap :=
  if v.typeOf = T then ((v, none), h)
  else ((zeroOf T, some (.castFailed envVar (typeName T))), h)

/-- Everything FromEnvOrDefault does after the option loop: load the
raw string; empty gives the default; otherwise a registered custom
marshaller runs (its failure honouring defaultOnError), else the
built-in switch runs (err honouring defaultOnError, the default branch
returning the unsupported-type error directly), and a successful value
passes through the type assertion. -/
def parseWithOpts (fp : Foreign) (T : GoType) (envVar : String) (defaultVal : GoVal)
    (po : EnvParseOpts) (h : Heap) : (GoVal × Option Err) × Heap :=
  if po.envLoader envVar = "" then ((defaultVal, none), h)
  else
    match lookupMarshaller po h T with
    | some m =>
      match m (po.envLoader envVar) with
      | .error e =>
        if po.defaultOnError then ((defaultVal, none), h)
        else ((zeroOf T, some (.marshFailed envVar (typeName T) e)), h)
      | .ok v => castResult T envVar v h
    | none =>
      match builtinParse fp po T (po.envLoader envVar) with
      | .unsupported => ((zeroOf T, some (.unsupportedType (typeName T) envVar)), h)
      | .failed e =>
        if po.defaultOnError then ((defaultVal, none), h)
        else ((zeroOf T, some (.parseFailed envVar (typeName T) e)), h)
      | .value v => castResult T envVar v h

/-- The per-call copy of the package-wide defaults: the struct is
copied by value, and when its marshaller map is non-nil the map
contents are copied into a freshly allocated map (parser.go lines
40-47). -/
def copyDefaults (g : EnvParseOpts) (h : Heap) : EnvParseOpts × Heap :=
  match g.customMarshallers with
  | none => (g, h)
  | some a =>
    let ah := h.alloc (h.store a)
    ({ g with customMarshallers := some ah.1 }, ah.2)

/-- FromEnvOrDefault (parser.go): copy the package defaults, apply the
options (a failing option returns the wrapped option error with dest
left the zero value), then parse. g is the package-wide
defaultParseOptions value and h the heap holding live marshaller maps;
the ctx argument of the source is unused by parsing and omitted. -/
def FromEnvOrDefault (fp : Foreign) (T : GoType) (g : EnvParseOpts) (h : Heap)
    (envVar : String) (defaultVal : GoVal) (opts : List EnvOpt) :
    (GoVal × Option Err) × Heap :=
  match applyOpts opts (copyDefaults g h).1 (copyDefaults g h).2 with
  | (some e, _, h2) => ((zeroOf T, some (.optionWrap e)), h2)
  | (none, po, h2) => parseWithOpts fp T envVar defaultVal po h2

/-- Whether an Except result is a success. -/
def exOk {α : Type} : Except Err α → Bool
  | .ok _ => true
  | .error _ => false

deriving instance DecidableEq for Except

/-- A concrete Foreign fixture for closed instances: every abstract
stdlib parser fails except url.Parse, which always succeeds (url.Parse
accepts almost every string). -/
def fpFix : Foreign :=
  ⟨fun s => .error (.msg s), fun s => .error (.msg s),
   fun _ s => .error (.msg s), fun _ => .ok 1⟩

/-- The package-wide defaultParseOptions of options.go, with the
process environment abstracted as a loader returning raw for every
variable: separator ",", fallback off, RFC3339 time layout, sensitivity
off, and a (non-nil) empty custom-marshaller map living at heap
address 0. -/
def gFix (raw : String) : EnvParseOpts :=
  ⟨fun _ => raw, ",", false, "2006-01-02T15:04:05Z07:00", false, some 0⟩

/-- The heap matching gFix: one allocated (empty) marshaller map. -/
def hFix : Heap := ⟨fun _ => emptyMarshMap, 1⟩

/-- Helper: the head reached by dropWhile fails the predicate. -/
theorem head_dropWhile_not {α : Type} (p : α → Bool) :
    ∀ (l : List α) (a : α) (rest : List α), l.dropWhile p = a :: rest → p a = false := by
  intro l
  induction l with
  | nil => intro a rest hcontra; simp [List.dropWhile] at hcontra
  | cons b bs ih =>
    intro a rest hdw
    by_cases hb : p b
    · rw [List.dropWhile_cons_of_pos hb] at hdw
      exact ih a rest hdw
    · rw [List.dropWhile_cons_of_neg hb] at hdw
      cases hdw
      simpa using hb

/-- Helper: dropWhile is the identity when the head already fails. -/
theorem dropWhile_of_head_false {α : Type} {p : α → Bool} {a : α} {l : List α}
    (h : p a = false) : (a :: l).dropWhile p = a :: l := by
  simp [List.dropWhile_cons, h]

/-- Helper: dropWhile is idempotent. -/
theorem dropWhile_idem {α : Type} (p : α → Bool) (l : List α) :
    (l.dropWhile p).dropWhile p = l.dropWhile p := by
  cases hdw : l.dropWhile p with
  | nil => simp
  | cons a r => exact dropWhile_of_head_false (head_dropWhile_not p l a r hdw)

/-- Helper: the reversed right-trim of a left-trimmed list starts (when
non-empty) with the head of the left-trimmed list, which fails the
predicate, so a further dropWhile leaves it unchanged. -/
theorem dropWhile_trim_reverse {α : Type} (p : α → Bool) (l : List α) :
    (((l.dropWhile p).reverse.dropWhile p).reverse).dropWhile p
      = ((l.dropWhile p).reverse.dropWhile p).reverse := by
  cases hBr : ((l.dropWhile p).reverse.dropWhile p).reverse with
  | nil => rfl
  | cons a r =>
    have tadw : (l.dropWhile p).reverse.takeWhile p ++ (l.dropWhile p).reverse.dropWhile p
        = (l.dropWhile p).reverse :=
      List.takeWhile_append_dropWhile p ((l.dropWhile p).reverse)
    have hsplit : l.dropWhile p
        = ((l.dropWhile p).reverse.dropWhile p).reverse
            ++ ((l.dropWhile p).reverse.takeWhile p).reverse := by
      rw [← List.reverse_append, tadw, List.reverse_reverse]
    rw [hBr] at hsplit
    have hpa : p a = false :=
      head_dropWhile_not p l a _ (by simpa using hsplit)
    exact dropWhile_of_head_false hpa

/-- Helper: two-sided trim is idempotent. -/
theorem trimChars_idem {α : Type} (p : α → Bool) (l : List α) :
    trimChars p (trimChars p l) = trimChars p l := by
  unfold trimChars
  rw [dropWhile_trim_reverse p l, List.reverse_reverse, dropWhile_idem]

/-- TrimSpace is idempotent, so trimmed segments carry no leading or
trailing white space. -/
theorem goTrimSpace_idem (s : String) : goTrimSpace (goTrimSpace s) = goTrimSpace s := by
  show String.mk (trimChars isGoSpace (trimChars isGoSpace s.toList)) = _
  exact congrArg String.mk (trimChars_idem isGoSpace s.toList)

/-- Every segment produced by splitAndTrim is trim-fixed: it has no
surrounding white space left. -/
theorem splitAndTrim_trimmed (s sep : String) :
    ∀ seg ∈ splitAndTrim s sep, goTrimSpace seg = seg := by
  intro seg hseg
  unfold splitAndTrim at hseg
  obtain ⟨y, _, rfl⟩ := List.mem_map.mp hseg
  exact goTrimSpace_idem y

/-- The slice loop stops at the first failing segment and reports its
value and 0-based position (offset by the starting index). -/
theorem parseSeqAux_first_fail (p : String → Except Err ScalarV) :
    ∀ (segs : List String) (n j : Nat) (e : Err), j < segs.length →
      (∀ i, i < j → exOk (p (segs.getD i "")) = true) →
      p (segs.getD j "") = .error e →
      parseSeqAux p n segs = .error (.itemFailed (segs.getD j "") (n + j) e) := by
  intro segs
  induction segs with
  | nil => intro n j e hj; simp at hj
  | cons a rest ih =>
    intro n j e hj hpre hfail
    cases j with
    | zero =>
      simp only [List.getD] at hfail ⊢
      simp at hfail
      simp [parseSeqAux, hfail]
    | succ j' =>
      have h0 : exOk (p a) = true := by
        have := hpre 0 (Nat.succ_pos j')
        simpa [List.getD] using this
      cases hpa : p a with
      | error e0 => rw [hpa] at h0; simp [exOk] at h0
      | ok v =>
        have hj' : j' < rest.length := by simpa using hj
        have hpre' : ∀ i, i < j' → exOk (p (rest.getD i "")) = true := by
          intro i hi
          have := hpre (i + 1) (by omega)
          simpa [List.getD] using this
        have hfail' : p (rest.getD j' "") = .error e := by
          simpa [List.getD] using hfail
        have hrec := ih (n + 1) j' e hj' hpre' hfail'
        have hidx : n + 1 + j' = n + (j' + 1) := by omega
        simp only [parseSeqAux, hpa, hrec, hidx]
        simp [List.getD]

/-- The option loop over an appended list, when the first part
succeeds. -/
theorem applyOpts_append_ok :
    ∀ (xs ys : List EnvOpt) (o o' : EnvParseOpts) (h h' : Heap),
      applyOpts xs o h = (none, o', h') →
      applyOpts (xs ++ ys) o h = applyOpts ys o' h' := by
  intro xs
  induction xs with
  | nil =>
    intro ys o o' h h' heq
    simp [applyOpts] at heq
    obtain ⟨rfl, rfl⟩ := heq
    simp
  | cons x rest ih =>
    intro ys o o' h h' heq
    simp only [applyOpts] at heq
    cases hx : applyOpt x o h with
    | error e => rw [hx] at heq; simp at heq
    | ok oh =>
      rw [hx] at heq
      simp only [List.cons_append, applyOpts, hx]
      exact ih ys oh.1 o' oh.2 h' heq

/-- The option loop over an appended list, when the first part fails. -/
theorem applyOpts_append_err :
    ∀ (xs ys : List EnvOpt) (o o' : EnvParseOpts) (h h' : Heap) (e : Err),
      applyOpts xs o h = (some e, o', h') →
      applyOpts (xs ++ ys) o h = (some e, o', h') := by
  intro xs
  induction xs with
  | nil => intro ys o o' h h' e heq; simp [applyOpts] at heq
  | cons x rest ih =>
    intro ys o o' h h' e heq
    simp only [applyOpts] at heq
    cases hx : applyOpt x o h with
    | error e0 =>
      rw [hx] at heq
      simp at heq
      obtain ⟨rfl, rfl, rfl⟩ := heq
      simp only [List.cons_append, applyOpts, hx]
    | ok oh =>
      rw [hx] at heq
      simp only [List.cons_append, applyOpts, hx]
      exact ih ys oh.1 o' oh.2 h' e heq

/-- The parse phase after the option loop never writes the heap. -/
theorem parseWithOpts_heap (fp : Foreign) (T : GoType) (envVar : String)
    (d : GoVal) (po : EnvParseOpts) (h : Heap) :
    (parseWithOpts fp T envVar d po h).2 = h := by
  unfold parseWithOpts castResult
  by_cases hs : po.envLoader envVar = ""
  · simp [hs]
  · cases hm : lookupMarshaller po h T with
    | some m =>
      cases hr : m (po.envLoader envVar) with
      | error e => simp [hs, hm, hr, apply_ite]
      | ok v => simp [hs, hm, hr, apply_ite]
    | none =>
      cases hb : builtinParse fp po T (po.envLoader envVar) with
      | unsupported => simp [hs, hm, hb]
      | failed e => simp [hs, hm, hb, apply_ite]
      | value v => simp [hs, hm, hb, apply_ite]

/-- The final heap of FromEnvOrDefault is the heap left by the option
loop over the copied defaults (the parse phase never writes it). -/
theorem FromEnvOrDefault_heap (fp : Foreign) (T : GoType) (g : EnvParseOpts) (h : Heap)
    (envVar : String) (d : GoVal) (opts : List EnvOpt) :
    (FromEnvOrDefault fp T g h envVar d opts).2
      = (applyOpts opts (copyDefaults g h).1 (copyDefaults g h).2).2.2 := by
  unfold FromEnvOrDefault
  rcases hA : applyOpts opts (copyDefaults g h).1 (copyDefaults g h).2 with ⟨e, po, h2⟩
  cases e <;> simp [parseWithOpts_heap]

/-- Frame property of a single successful option application: heap
addresses below n are untouched, the allocation frontier stays at or
above n, and the map address held by the option set stays at or above
n. -/
theorem applyOpt_frame {opt : EnvOpt} {o o' : EnvParseOpts} {h h' : Heap}
    (heq : applyOpt opt o h = .ok (o', h')) (n : Nat)
    (hn : n ≤ h.next) (ho : ∀ c, o.customMarshallers = some c → n ≤ c) :
    (∀ b, b < n → h'.store b = h.store b) ∧ n ≤ h'.next ∧
      (∀ c, o'.customMarshallers = some c → n ≤ c) := by
  cases opt with
  | withEnvLoader l =>
    cases l with
    | none => simp [applyOpt] at heq
    | some f =>
      simp [applyOpt] at heq
      obtain ⟨rfl, rfl⟩ := heq
      exact ⟨fun b _ => rfl, hn, fun c hc => ho c (by simpa using hc)⟩
  | withEnvParseSeparator sep =>
    by_cases hsep : sep = ""
    · subst hsep; simp [applyOpt] at heq
    · simp [applyOpt, hsep] at heq
      obtain ⟨rfl, rfl⟩ := heq
      exact ⟨fun b _ => rfl, hn, fun c hc => ho c (by simpa using hc)⟩
  | withFallbackToDefaultOnError b =>
    simp [applyOpt] at heq
    obtain ⟨rfl, rfl⟩ := heq
    exact ⟨fun b _ => rfl, hn, fun c hc => ho c (by simpa using hc)⟩
  | withTimeLayout layout =>
    by_cases hlay : layout = ""
    · subst hlay; simp [applyOpt] at heq
    · simp [applyOpt, hlay] at heq
      obtain ⟨rfl, rfl⟩ := heq
      exact ⟨fun b _ => rfl, hn, fun c hc => ho c (by simpa using hc)⟩
  | withSensitive b =>
    simp [applyOpt] at heq
    obtain ⟨rfl, rfl⟩ := heq
    exact ⟨fun b _ => rfl, hn, fun c hc => ho c (by simpa using hc)⟩
  | withCustomMarshaller t m =>
    cases m with
    | none => simp [applyOpt] at heq
    | some mr =>
      cases hcm : o.customMarshallers with
      | none =>
        simp [applyOpt, hcm, Heap.alloc] at heq
        obtain ⟨rfl, rfl⟩ := heq
        refine ⟨fun b hb => ?_, by simp; omega, fun c hc => ?_⟩
        · have hbne : b ≠ h.next := by omega
          simp [hbne]
        · simp at hc
          omega
      | some a =>
        have hna : n ≤ a := ho a hcm
        simp [applyOpt, hcm, Heap.write] at heq
        obtain ⟨rfl, rfl⟩ := heq
        refine ⟨fun b hb => ?_, by simp [hn], fun c hc => ho c hc⟩
        have hbne : b ≠ a := by omega
        simp [hbne]

/-- Frame property of the whole option loop, including the heap it
returns on an option failure. -/
theorem applyOpts_frame :
    ∀ (opts : List EnvOpt) (o : EnvParseOpts) (h : Heap) (n : Nat),
      n ≤ h.next →
      (∀ c, o.customMarshallers = some c → n ≤ c) →
      (∀ b, b < n → (applyOpts opts o h).2.2.store b = h.store b) ∧
        n ≤ (applyOpts opts o h).2.2.next ∧
        (∀ c, (applyOpts opts o h).2.1.customMarshallers = some c → n ≤ c) := by
  intro opts
  induction opts with
  | nil => intro o h n hn ho; exact ⟨fun b _ => rfl, hn, ho⟩
  | cons x rest ih =>
    intro o h n hn ho
    cases hx : applyOpt x o h with
    | error e =>
      have hgoal : applyOpts (x :: rest) o h = (some e, o, h) := by
        simp only [applyOpts, hx]
      rw [hgoal]
      exact ⟨fun b _ => rfl, hn, ho⟩
    | ok oh =>
      have hgoal : applyOpts (x :: rest) o h = applyOpts rest oh.1 oh.2 := by
        simp only [applyOpts, hx]
      obtain ⟨hstep, hnext, hcm⟩ := @applyOpt_frame x o oh.1 h oh.2
        (by rw [hx]) n hn ho
      obtain ⟨hstore', hnext', hcm'⟩ := ih oh.1 oh.2 n hnext hcm
      rw [hgoal]
      exact ⟨fun b hb => (hstore' b hb).trans (hstep b hb), hnext', hcm'⟩

/-- The projection of the option set that the parse phase reads: every
field except the sensitivity flag. -/
def optsCore (o : EnvParseOpts) :
    (String → String) × String × Bool × String × Option Nat :=
  (o.envLoader, o.separator, o.defaultOnError, o.timeLayout, o.customMarshallers)

/-- The element parser only reads the time layout from the option
set. -/
theorem elemParse_core_congr (fp : Foreign) {po po' : EnvParseOpts}
    (hT : po.timeLayout = po'.timeLayout) :
    elemParse fp po = elemParse fp po' := by
  funext k s
  cases k <;> simp [elemParse, hT]

/-- The built-in type switch only reads the separator and the time
layout from the option set. -/
theorem builtinParse_core_congr (fp : Foreign) (T : GoType) (s : String)
    {po po' : EnvParseOpts} (hS : po.separator = po'.separator)
    (hT : po.timeLayout = po'.timeLayout) :
    builtinParse fp po T s = builtinParse fp po' T s := by
  cases T with
  | scalar k => cases k <;> simp [builtinParse, hT]
  | slice k =>
    cases k <;> simp [builtinParse, hS, elemParse_core_congr fp hT]
  | ptrTo k => rfl
  | named nm => rfl

/-- The parse phase reads only the core of the option set: the
sensitivity flag never influences it. -/
theorem parseWithOpts_core_congr (fp : Foreign) (T : GoType) (envVar : String)
    (d : GoVal) {po po' : EnvParseOpts} (h : Heap)
    (hco : optsCore po = optsCore po') :
    parseWithOpts fp T envVar d po h = parseWithOpts fp T envVar d po' h := by
  have hfields := hco
  simp only [optsCore, Prod.mk.injEq] at hfields
  obtain ⟨hL, hS, hD, hT, hM⟩ := hfields
  unfold parseWithOpts lookupMarshaller
  rw [hL, hD, hM, builtinParse_core_congr fp T (po'.envLoader envVar) hS hT]

/-- Character of a decimal digit. -/
def digitChar : Nat → Char
  | 0 => '0'
  | 1 => '1'
  | 2 => '2'
  | 3 => '3'
  | 4 => '4'
  | 5 => '5'
  | 6 => '6'
  | 7 => '7'
  | 8 => '8'
  | _ => '9'

/-- Decimal digits of n, most significant first; fuel bounds the
recursion depth (n + 1 always suffices). -/
def natToCharsAux : Nat → Nat → List Char
  | 0, _ => []
  | fuel + 1, n =>
    if n < 10 then [digitChar n]
    else natToCharsAux fuel (n / 10) ++ [digitChar (n % 10)]

/-- Decimal representation of a natural number. These formatting
functions model the standard Go formatting (strconv.FormatUint,
strconv.FormatInt, strconv.FormatBool); they appear only in round-trip
statements, not in the engine. -/
def natToChars (n : Nat) : List Char := natToCharsAux (n + 1) n

/-- Standard decimal string of a natural number. -/
def goFormatNat (n : Nat) : String := ⟨natToChars n⟩

/-- Standard decimal string of an integer. -/
def goFormatInt (x : Int) : String :=
  if x < 0 then ⟨'-' :: natToChars x.natAbs⟩ else ⟨natToChars x.natAbs⟩

/-- Standard string of a boolean. -/
def goFormatBool (b : Bool) : String := if b then "true" else "false"

/-- Helper: digit characters have the expected digit value and pass the
digit test. -/
theorem digit_props : ∀ d, d < 10 →
    digitVal (digitChar d) = d ∧ charIsDigit (digitChar d) = true := by
  decide

/-- Helper: the value of a digit string extended by one digit. -/
theorem decValue_append (xs : List Char) (c : Char) :
    decValue (xs ++ [c]) = decValue xs * 10 + digitVal c := by
  unfold decValue
  rw [List.foldl_append]
  rfl

/-- Helper: the digit expansion of n is a non-empty all-digit string
whose decimal value is n, as long as the fuel exceeds n. -/
theorem natToCharsAux_spec : ∀ (fuel n : Nat), n < fuel →
    natToCharsAux fuel n ≠ [] ∧ (natToCharsAux fuel n).all charIsDigit = true ∧
      decValue (natToCharsAux fuel n) = n := by
  intro fuel
  induction fuel with
  | zero => intro n hn; omega
  | succ f ih =>
    intro n hn
    by_cases h10 : n < 10
    · obtain ⟨hv, hd⟩ := digit_props n h10
      refine ⟨by simp [natToCharsAux, h10], ?_, ?_⟩
      · simp [natToCharsAux, h10, hd]
      · simp [natToCharsAux, h10, decValue, hv]
    · have hdivlt : n / 10 < n := Nat.div_lt_self (by omega) (by omega)
      have hrec : n / 10 < f := by omega
      obtain ⟨hne, hall, hdec⟩ := ih (n / 10) hrec
      obtain ⟨hv, hd⟩ := digit_props (n % 10) (Nat.mod_lt n (by omega))
      refine ⟨by simp [natToCharsAux, h10], ?_, ?_⟩
      · simp [natToCharsAux, h10, List.all_append, hall, hd]
      · have hmod := Nat.div_add_mod n 10
        simp [natToCharsAux, h10, decValue_append, hdec, hv]
        omega

/-- Helper: the digit expansion of n is non-empty, all digits, and has
value n. -/
theorem natToChars_spec (n : Nat) :
    natToChars n ≠ [] ∧ (natToChars n).all charIsDigit = true ∧
      decValue (natToChars n) = n :=
  natToCharsAux_spec (n + 1) n (by omega)

/-- Helper: the decimal string of a natural number is non-empty. -/
theorem goFormatNat_ne_empty (n : Nat) : goFormatNat n ≠ "" := by
  intro hcontra
  have hdata : natToChars n = [] := congrArg String.data hcontra
  exact (natToChars_spec n).1 hdata

/-- Helper: the decimal string of an integer is non-empty. -/
theorem goFormatInt_ne_empty (x : Int) : goFormatInt x ≠ "" := by
  unfold goFormatInt
  split
  · intro hcontra
    have hdata := congrArg String.data hcontra
    simp at hdata
  · exact goFormatNat_ne_empty x.natAbs

/-- ParseUint inverts decimal formatting for every value in the uint64
range. -/
theorem goParseUint_roundtrip (fn : String) (n : Nat) (h : n ≤ uint64Max) :
    goParseUint fn (goFormatNat n) = .ok n := by
  obtain ⟨hne, hall, hdec⟩ := natToChars_spec n
  have htl : (goFormatNat n).toList = natToChars n := rfl
  unfold goParseUint
  rw [htl]
  rw [if_neg (by simpa [List.isEmpty_iff] using hne), if_pos hall, hdec, if_pos h]

/-- ParseInt inverts decimal formatting for every value in the int64
range. -/
theorem goParseInt_roundtrip (fn : String) (x : Int)
    (h1 : -(int64MinAbs : Int) ≤ x) (h2 : x ≤ (int64Max : Int)) :
    goParseInt fn (goFormatInt x) = .ok x := by
  obtain ⟨hne, hall, hdec⟩ := natToChars_spec x.natAbs
  by_cases hneg : x < 0
  · have htl : (goFormatInt x).toList = '-' :: natToChars x.natAbs := by
      simp [goFormatInt, hneg]
    have habs : (x.natAbs : Int) = -x := by
      rcases Int.natAbs_eq x with he | he <;> omega
    have hrange : decValue (natToChars x.natAbs) ≤ int64MinAbs := by
      rw [hdec]; omega
    unfold goParseInt
    rw [htl]
    simp only [true_or, if_true, ite_true, decide_eq_true_eq,
      if_pos (Or.inl (rfl : '-' = '-')), if_pos hall, if_pos hrange]
    rw [if_neg (show ¬((natToChars x.natAbs).isEmpty = true) by
      simpa [List.isEmpty_iff] using hne)]
    rw [hdec, habs, neg_neg]
  · have hx0 : 0 ≤ x := by omega
    have htl : (goFormatInt x).toList = natToChars x.natAbs := by
      simp [goFormatInt, hneg]
    obtain ⟨c, rest, hcons⟩ := List.exists_cons_of_ne_nil hne
    have hcdig : charIsDigit c = true := by
      rw [hcons] at hall
      simp [List.all_cons] at hall
      exact hall.1
    have hcm : c ≠ '-' := by
      intro hcontra
      subst hcontra
      simp [charIsDigit] at hcdig
    have hcp : c ≠ '+' := by
      intro hcontra
      subst hcontra
      simp [charIsDigit] at hcdig
    have hsign : ¬(c = '-' ∨ c = '+') := by
      rintro (hc | hc)
      · exact hcm hc
      · exact hcp hc
    obtain ⟨hne2, hall2, hdec2⟩ := natToChars_spec x.natAbs
    unfold goParseInt
    rw [htl, hcons]
    have hdigs : (if c = '-' ∨ c = '+' then rest else c :: rest) = c :: rest :=
      if_neg hsign
    rw [hcons] at hne2 hall2 hdec2
    have hrange : decValue (c :: rest) ≤ int64Max := by
      rw [hdec2]; omega
    have hnegd : (decide (c = '-')) = false := by simp [hcm]
    simp only [hdigs, hnegd, Bool.false_eq_true, if_false, ite_false,
      if_pos hall2, if_pos hrange]
    rw [hdec2]
    have habs : (x.natAbs : Int) = x := Int.natAbs_of_nonneg hx0
    rw [habs]
    simp

/-- ParseBool inverts boolean formatting. -/
theorem goParseBool_roundtrip (b : Bool) : goParseBool (goFormatBool b) = .ok b := by
  cases b <;> rfl

/-- One option application started from core-equal option sets either
fails with the same error on both, or succeeds on both with the same
heap and core-equal resulting option sets. -/
theorem applyOpt_core_congr {opt : EnvOpt} {o o' : EnvParseOpts} (h : Heap)
    (hco : optsCore o = optsCore o') :
    (∃ e, applyOpt opt o h = .error e ∧ applyOpt opt o' h = .error e) ∨
    (∃ a a' hh, applyOpt opt o h = .ok (a, hh) ∧ applyOpt opt o' h = .ok (a', hh) ∧
      optsCore a = optsCore a') := by
  have hfields := hco
  simp only [optsCore, Prod.mk.injEq] at hfields
  obtain ⟨hL, hS, hD, hT, hM⟩ := hfields
  cases opt with
  | withEnvLoader l =>
    cases l with
    | none => exact Or.inl ⟨.msg "env loader function cannot be nil", rfl, rfl⟩
    | some f =>
      exact Or.inr ⟨{ o with envLoader := f }, { o' with envLoader := f }, h,
        rfl, rfl, by simp [optsCore, hS, hD, hT, hM]⟩
  | withEnvParseSeparator sep =>
    by_cases hsep : sep = ""
    · subst hsep
      exact Or.inl ⟨.msg "separator cannot be empty string",
        by simp [applyOpt], by simp [applyOpt]⟩
    · exact Or.inr ⟨{ o with separator := sep }, { o' with separator := sep }, h,
        by simp [applyOpt, hsep], by simp [applyOpt, hsep],
        by simp [optsCore, hL, hD, hT, hM]⟩
  | withFallbackToDefaultOnError b =>
    exact Or.inr ⟨{ o with defaultOnError := b }, { o' with defaultOnError := b }, h,
      rfl, rfl, by simp [optsCore, hL, hS, hT, hM]⟩
  | withTimeLayout layout =>
    by_cases hlay : layout = ""
    · subst hlay
      exact Or.inl ⟨.msg "time layout cannot be empty string",
        by simp [applyOpt], by simp [applyOpt]⟩
    · exact Or.inr ⟨{ o with timeLayout := layout }, { o' with timeLayout := layout }, h,
        by simp [applyOpt, hlay], by simp [applyOpt, hlay],
        by simp [optsCore, hL, hS, hD, hM]⟩
  | withSensitive b =>
    exact Or.inr ⟨{ o with sensitive := b }, { o' with sensitive := b }, h,
      rfl, rfl, by simp [optsCore, hL, hS, hD, hT, hM]⟩
  | withCustomMarshaller t m =>
    cases m with
    | none => exact Or.inl ⟨.msg "custom marshaller cannot be nil", rfl, rfl⟩
    | some mr =>
      cases hcm : o.customMarshallers with
      | none =>
        have hcm' : o'.customMarshallers = none := by rw [← hM]; exact hcm
        exact Or.inr
          ⟨{ o with customMarshallers := some (h.alloc (mapInsert emptyMarshMap t mr)).1 },
           { o' with customMarshallers := some (h.alloc (mapInsert emptyMarshMap t mr)).1 },
           (h.alloc (mapInsert emptyMarshMap t mr)).2,
           by simp [applyOpt, hcm], by simp [applyOpt, hcm'],
           by simp [optsCore, hL, hS, hD, hT]⟩
      | some a =>
        have hcm' : o'.customMarshallers = some a := by rw [← hM]; exact hcm
        exact Or.inr ⟨o, o', h.write a (mapInsert (h.store a) t mr),
          by simp [applyOpt, hcm], by simp [applyOpt, hcm'], hco⟩

/-- The option loop started from core-equal option sets yields the same
error, the same heap, and core-equal option sets. -/
theorem applyOpts_core_congr :
    ∀ (opts : List EnvOpt) (o o' : EnvParseOpts) (h : Heap),
      optsCore o = optsCore o' →
      (applyOpts opts o h).1 = (applyOpts opts o' h).1 ∧
        optsCore (applyOpts opts o h).2.1 = optsCore (applyOpts opts o' h).2.1 ∧
        (applyOpts opts o h).2.2 = (applyOpts opts o' h).2.2 := by
  intro opts
  induction opts with
  | nil => intro o o' h hco; exact ⟨rfl, hco, rfl⟩
  | cons x rest ih =>
    intro o o' h hco
    rcases @applyOpt_core_congr x o o' h hco with
      ⟨e, hx, hx'⟩ | ⟨a, a', hh, hx, hx', hcore⟩
    · have hgL : applyOpts (x :: rest) o h = (some e, o, h) := by
        simp only [applyOpts, hx]
      have hgR : applyOpts (x :: rest) o' h = (some e, o', h) := by
        simp only [applyOpts, hx']
      rw [hgL, hgR]
      exact ⟨rfl, hco, rfl⟩
    · have hgL : applyOpts (x :: rest) o h = applyOpts rest a hh := by
        simp only [applyOpts, hx]
      have hgR : applyOpts (x :: rest) o' h = applyOpts rest a' hh := by
        simp only [applyOpts, hx']
      rw [hgL, hgR]
      exact ih a a' hh hcore

/-- The scalar value shapes whose round trip the amended C8 covers:
every supported scalar kind except url.URL (refuted separately, see
C1) and the empty string (refuted by the counterexample): booleans,
in-range int, uint, int64 and uint64 values, non-empty strings, and
float64, time.Duration and time.Time values. -/
def wfRoundtrip : GoVal → Bool
  | .scalar (.str s) => decide (s ≠ "")
  | .scalar (.boolV _) => true
  | .scalar (.intV n) => decide (-(int64MinAbs : Int) ≤ n ∧ n ≤ (int64Max : Int))
  | .scalar (.int64V n) => decide (-(int64MinAbs : Int) ≤ n ∧ n ≤ (int64Max : Int))
  | .scalar (.uintV n) => decide (n ≤ uint64Max)
  | .scalar (.uint64V n) => decide (n ≤ uint64Max)
  | .scalar (.floatV _) => true
  | .scalar (.durationV _) => true
  | .scalar (.timeV _) => true
  | _ => false

/-- Abstract standard formatters for the scalar kinds whose formatting
lives in the Go stdlib outside this repository: strconv.FormatFloat,
time.Duration.String, and time.Time.Format (layout first). They pair
with the abstract parsers of Foreign. -/
structure ScalarFmt where
  fmtFloat : Nat → String
  fmtDuration : Int → String
  fmtTime : String → Nat → String

/-- The standard string representation of a supported scalar value:
identity on strings, concrete strconv formatting on the numeric and
boolean kinds, and the abstract stdlib formatter on float64, duration
and time values (the time formatter receives the configured layout). -/
def goFormatVal (sf : ScalarFmt) (layout : String) : GoVal → String
  | .scalar (.str s) => s
  | .scalar (.boolV b) => goFormatBool b
  | .scalar (.intV n) => goFormatInt n
  | .scalar (.int64V n) => goFormatInt n
  | .scalar (.uintV n) => goFormatNat n
  | .scalar (.uint64V n) => goFormatNat n
  | .scalar (.floatV x) => sf.fmtFloat x
  | .scalar (.durationV ns) => sf.fmtDuration ns
  | .scalar (.timeV t) => sf.fmtTime layout t
  | _ => ""

/-- The inversion property of the abstract stdlib formatter and parser
pairs at a value: parsing the formatted string gives the value back and
the formatted string is non-empty (both hold of the real stdlib pairs:
ParseFloat inverts FormatFloat, ParseDuration inverts Duration.String,
and time.Parse with a layout inverts Format with the same layout;
their outputs are never empty). Trivial for the kinds the embedding
formats concretely. -/
def foreignInverts (fp : Foreign) (sf : ScalarFmt) (layout : String) : GoVal → Prop
  | .scalar (.floatV x) =>
    fp.parseFloat (sf.fmtFloat x) = .ok x ∧ sf.fmtFloat x ≠ ""
  | .scalar (.durationV ns) =>
    fp.parseDuration (sf.fmtDuration ns) = .ok ns ∧ sf.fmtDuration ns ≠ ""
  | .scalar (.timeV t) =>
    fp.parseTime layout (sf.fmtTime layout t) = .ok t ∧ sf.fmtTime layout t ≠ ""
  | _ => True

/-- The argument errors named by C5: nil loader, empty separator, empty
time layout, each with the message options.go raises for it. -/
def invalidArgMsg : EnvOpt → Option Err
  | .withEnvLoader none => some (.msg "env loader function cannot be nil")
  | .withEnvParseSeparator sep =>
    if sep = "" then some (.msg "separator cannot be empty string") else none
  | .withTimeLayout layout =>
    if layout = "" then some (.msg "time layout cannot be empty string") else none
  | _ => none

/-- C10: for every target type, variable name, default value, loader
and option list, the result (value, error and final heap) of
FromEnvOrDefault is the same with or without a WithSensitive option
anywhere in the list and for either boolean argument: the sensitivity
flag is stored in the option set but never read by parsing. -/
theorem c10_sensitive_no_influence (fp : Foreign) (T : GoType) (g : EnvParseOpts)
    (h : Heap) (envVar : String) (d : GoVal) (l1 l2 : List EnvOpt) (b : Bool) :
    FromEnvOrDefault fp T g h envVar d (l1 ++ .withSensitive b :: l2)
      = FromEnvOrDefault fp T g h envVar d (l1 ++ l2) := by
  unfold FromEnvOrDefault
  rcases hA : applyOpts l1 (copyDefaults g h).1 (copyDefaults g h).2 with ⟨e, o1, hp1⟩
  cases e with
  | some e0 =>
    rw [applyOpts_append_err l1 (EnvOpt.withSensitive b :: l2) _ _ _ _ _ hA,
        applyOpts_append_err l1 l2 _ _ _ _ _ hA]
  | none =>
    rw [applyOpts_append_ok l1 (EnvOpt.withSensitive b :: l2) _ _ _ _ hA,
        applyOpts_append_ok l1 l2 _ _ _ _ hA]
    have hstep : applyOpts (EnvOpt.withSensitive b :: l2) o1 hp1
        = applyOpts l2 { o1 with sensitive := b } hp1 := by
      simp [applyOpts, applyOpt]
    rw [hstep]
    have hcore : optsCore { o1 with sensitive := b } = optsCore o1 := by
      simp [optsCore]
    obtain ⟨he, hco, hhp⟩ :=
      applyOpts_core_congr l2 { o1 with sensitive := b } o1 hp1 hcore
    rcases hA1 : applyOpts l2 { o1 with sensitive := b } hp1 with ⟨e1, po1, hq1⟩
    rcases hA2 : applyOpts l2 o1 hp1 with ⟨e2, po2, hq2⟩
    rw [hA1, hA2] at he hco hhp
    have he' : e1 = e2 := he
    have hco' : optsCore po1 = optsCore po2 := hco
    have hhp' : hq1 = hq2 := hhp
    subst he'
    subst hhp'
    cases e1 with
    | some e0 => rfl
    | none => exact parseWithOpts_core_congr fp T envVar d hq1 hco'

/-- C7: no call to FromEnvOrDefault mutates the contents of the
marshaller registry held by the package-wide default option set: for
any allocated registry address of the defaults, the heap cell at that
address is unchanged after the call, whatever options were passed
(including marshaller registrations and separator overrides). -/
theorem c7_defaults_not_mutated (fp : Foreign) (T : GoType) (g : EnvParseOpts)
    (h : Heap) (envVar : String) (d : GoVal) (opts : List EnvOpt) (a : Nat)
    (hcm : g.customMarshallers = some a) (ha : a < h.next) :
    ((FromEnvOrDefault fp T g h envVar d opts).2).store a = h.store a := by
  rw [FromEnvOrDefault_heap]
  have hcopy1 : (copyDefaults g h).1 = { g with customMarshallers := some h.next } := by
    simp [copyDefaults, hcm, Heap.alloc]
  have hcopy2 : (copyDefaults g h).2
      = ⟨fun b => if b = h.next then h.store a else h.store b, h.next + 1⟩ := by
    simp [copyDefaults, hcm, Heap.alloc]
  rw [hcopy1, hcopy2]
  obtain ⟨hstore, _, _⟩ := applyOpts_frame opts
    { g with customMarshallers := some h.next }
    ⟨fun b => if b = h.next then h.store a else h.store b, h.next + 1⟩
    h.next (by simp) (by intro c hc; simp at hc; omega)
  rw [hstore a ha]
  have hane : a ≠ h.next := by omega
  simp [hane]

/-- C7 witness: a call that registers a custom marshaller and overrides
the separator leaves the registry of the default option set (heap
address 0) untouched. -/
theorem c7_defaults_not_mutated_witness :
    ((FromEnvOrDefault fpFix (.scalar .int) (gFix "x") hFix "V" (.scalar (.intV 0))
        [.withCustomMarshaller (.scalar .int) (some (fun _ => .ok (.scalar (.intV 3)))),
         .withEnvParseSeparator ";"]).2).store 0 = hFix.store 0 :=
  c7_defaults_not_mutated fpFix (.scalar .int) (gFix "x") hFix "V" (.scalar (.intV 0))
    [.withCustomMarshaller (.scalar .int) (some (fun _ => .ok (.scalar (.intV 3)))),
     .withEnvParseSeparator ";"] 0 rfl (by decide)

/-- C4 (amended): whenever all passed options apply successfully and
the effective loader returns the empty string for the requested
variable, FromEnvOrDefault returns the supplied default with no error,
for every target type; a failing option still yields its
configuration error instead (see the counterexample). -/
theorem c4_empty_raw_returns_default (fp : Foreign) (T : GoType) (g : EnvParseOpts)
    (h : Heap) (envVar : String) (d : GoVal) (opts : List EnvOpt)
    (po : EnvParseOpts) (hp : Heap)
    (hA : applyOpts opts (copyDefaults g h).1 (copyDefaults g h).2 = (none, po, hp))
    (hload : po.envLoader envVar = "") :
    FromEnvOrDefault fp T g h envVar d opts = ((d, none), hp) := by
  unfold FromEnvOrDefault
  rw [hA]
  simp [parseWithOpts, hload]

/-- C4 witness: with the fallback option applied and an empty
environment, the default comes back with no error. -/
theorem c4_empty_raw_returns_default_witness :
    FromEnvOrDefault fpFix (.scalar .bool) (gFix "") hFix "X" (.scalar (.boolV true))
        [.withFallbackToDefaultOnError true]
      = (((.scalar (.boolV true) : GoVal), (none : Option Err)),
          (copyDefaults (gFix "") hFix).2) :=
  c4_empty_raw_returns_default fpFix (.scalar .bool) (gFix "") hFix "X"
    (.scalar (.boolV true)) [.withFallbackToDefaultOnError true]
    { (copyDefaults (gFix "") hFix).1 with defaultOnError := true }
    (copyDefaults (gFix "") hFix).2 rfl rfl

/-- C4 counterexample: the loader returns the empty string for every
variable, yet passing the invalid empty-separator option makes
FromEnvOrDefault return a configuration error, not the default — so
the result is not the default regardless of options. -/
theorem c4_counterexample_option_error_beats_empty :
    (FromEnvOrDefault fpFix (.scalar .int) (gFix "") hFix "X" (.scalar (.intV 7))
        [.withEnvParseSeparator ""]).fst
      = (.scalar (.intV 0), some (.optionWrap (.msg "separator cannot be empty string")))
    ∧ ((.scalar (.intV 0) : GoVal),
        (some (.optionWrap (.msg "separator cannot be empty string")) : Option Err))
      ≠ ((.scalar (.intV 7) : GoVal), (none : Option Err)) := by
  constructor
  · decide
  · decide

/-- C5: a prefix of successfully applying options followed by an option
with an invalid argument (nil loader, empty separator or empty time
layout) makes FromEnvOrDefault return dest as the zero value together
with the wrapped configuration error naming the violated constraint,
whatever options (fallback included) come before or after. -/
theorem c5_option_errors_always_surface (fp : Foreign) (T : GoType) (g : EnvParseOpts)
    (h : Heap) (envVar : String) (d : GoVal) (l1 l2 : List EnvOpt) (bad : EnvOpt)
    (e : Err) (po : EnvParseOpts) (hp : Heap)
    (hbad : invalidArgMsg bad = some e)
    (hA : applyOpts l1 (copyDefaults g h).1 (copyDefaults g h).2 = (none, po, hp)) :
    FromEnvOrDefault fp T g h envVar d (l1 ++ bad :: l2)
      = ((zeroOf T, some (.optionWrap e)), hp) := by
  unfold FromEnvOrDefault
  rw [applyOpts_append_ok l1 (bad :: l2) _ _ _ _ hA]
  have hstep : applyOpt bad po hp = .error e := by
    cases bad with
    | withEnvLoader l =>
      cases l with
      | none => simp [invalidArgMsg] at hbad; subst hbad; rfl
      | some f => simp [invalidArgMsg] at hbad
    | withEnvParseSeparator sep =>
      by_cases hsep : sep = ""
      · subst hsep
        simp [invalidArgMsg] at hbad
        subst hbad
        simp [applyOpt]
      · simp [invalidArgMsg, hsep] at hbad
    | withTimeLayout layout =>
      by_cases hlay : layout = ""
      · subst hlay
        simp [invalidArgMsg] at hbad
        subst hbad
        simp [applyOpt]
      · simp [invalidArgMsg, hlay] at hbad
    | withFallbackToDefaultOnError b => simp [invalidArgMsg] at hbad
    | withSensitive b => simp [invalidArgMsg] at hbad
    | withCustomMarshaller t m => simp [invalidArgMsg] at hbad
  have hloop : applyOpts (bad :: l2) po hp = (some e, po, hp) := by
    simp only [applyOpts, hstep]
  rw [hloop]

/-- C5 witness: the empty-separator option fails the parse with its
configuration error even though the fallback option was applied
first. -/
theorem c5_option_errors_always_surface_witness :
    FromEnvOrDefault fpFix (.scalar .int) (gFix "5") hFix "N" (.scalar (.intV 7))
        ([.withFallbackToDefaultOnError true] ++ .withEnvParseSeparator "" :: [])
      = ((zeroOf (.scalar .int),
          some (.optionWrap (.msg "separator cannot be empty string"))),
         (copyDefaults (gFix "5") hFix).2) :=
  c5_option_errors_always_surface fpFix (.scalar .int) (gFix "5") hFix "N"
    (.scalar (.intV 7)) [.withFallbackToDefaultOnError true] []
    (.withEnvParseSeparator "") (.msg "separator cannot be empty string")
    { (copyDefaults (gFix "5") hFix).1 with defaultOnError := true }
    (copyDefaults (gFix "5") hFix).2 rfl rfl

/-- C6: for a non-string sequence target type, when the first failing
segment of the split-and-trimmed raw string sits at 0-based position j,
FromEnvOrDefault (without fallback) discards all partial results
(returning the zero value) and reports an error carrying exactly that
trimmed segment value and position j, wrapped in the parse error. -/
theorem c6_sequence_first_failure_reported (fp : Foreign) (g : EnvParseOpts) (h : Heap)
    (envVar : String) (d : GoVal) (opts : List EnvOpt) (po : EnvParseOpts) (hp : Heap)
    (k : GoKind) (s : String) (j : Nat) (e : Err)
    (hA : applyOpts opts (copyDefaults g h).1 (copyDefaults g h).2 = (none, po, hp))
    (hfb : po.defaultOnError = false)
    (hload : po.envLoader envVar = s)
    (hs : s ≠ "")
    (hnm : lookupMarshaller po hp (.slice k) = none)
    (hk : k ≠ GoKind.string)
    (hj : j < (splitAndTrim s po.separator).length)
    (hpre : ∀ i, i < j →
      exOk (elemParse fp po k ((splitAndTrim s po.separator).getD i "")) = true)
    (hfail : elemParse fp po k ((splitAndTrim s po.separator).getD j "") = .error e) :
    FromEnvOrDefault fp (.slice k) g h envVar d opts
      = ((.sliceV k [], some (.parseFailed envVar (typeName (.slice k))
            (.itemFailed ((splitAndTrim s po.separator).getD j "") j e))), hp) := by
  unfold FromEnvOrDefault
  rw [hA]
  have hloop := parseSeqAux_first_fail (elemParse fp po k) (splitAndTrim s po.separator)
    0 j e hj hpre hfail
  rw [Nat.zero_add] at hloop
  have hbp : builtinParse fp po (.slice k) s
      = .failed (.itemFailed ((splitAndTrim s po.separator).getD j "") j e) := by
    cases k with
    | string => exact absurd rfl hk
    | bool => simp [builtinParse, hloop]
    | int => simp [builtinParse, hloop]
    | uint => simp [builtinParse, hloop]
    | int64 => simp [builtinParse, hloop]
    | uint64 => simp [builtinParse, hloop]
    | float64 => simp [builtinParse, hloop]
    | duration => simp [builtinParse, hloop]
    | time => simp [builtinParse, hloop]
    | url => simp [builtinParse, hloop]
  show parseWithOpts fp (.slice k) envVar d po hp = _
  unfold parseWithOpts
  rw [hload, if_neg hs, hnm, hbp, hfb]
  rfl

/-- C6 witness: parsing "32,-2,abcd" as a uint sequence fails at
position 1 with trimmed value "-2" and a ParseUint invalid-syntax
cause, discarding the partial results. -/
theorem c6_sequence_first_failure_reported_witness :
    (FromEnvOrDefault fpFix (.slice .uint) (gFix "32,-2,abcd") hFix "L" (.sliceV .uint [])
        []).fst
      = (.sliceV .uint [], some (.parseFailed "L" "[]uint"
            (.itemFailed "-2" 1 (.numError "ParseUint" "-2" .invalidSyn)))) := by
  have hmain := c6_sequence_first_failure_reported fpFix (gFix "32,-2,abcd") hFix "L"
    (.sliceV .uint []) [] (copyDefaults (gFix "32,-2,abcd") hFix).1
    (copyDefaults (gFix "32,-2,abcd") hFix).2 .uint "32,-2,abcd" 1
    (.numError "ParseUint" "-2" .invalidSyn)
    rfl rfl rfl (by decide) rfl (by decide) (by decide) (by decide) (by decide)
  rw [congrArg Prod.fst hmain]
  decide

/-- C3 (amended): for every non-string sequence target type the engine
splits the raw string on the configured separator and trims each
segment before conversion, every converted segment being trim-fixed;
the []string branch, by contrast, splits without trimming (see the
counterexample). -/
theorem c3_nonstring_sequences_trimmed (fp : Foreign) (g : EnvParseOpts) (h : Heap)
    (envVar : String) (d : GoVal) (opts : List EnvOpt) (po : EnvParseOpts) (hp : Heap)
    (k : GoKind)
    (hA : applyOpts opts (copyDefaults g h).1 (copyDefaults g h).2 = (none, po, hp))
    (hs : po.envLoader envVar ≠ "")
    (hnm : lookupMarshaller po hp (.slice k) = none)
    (hk : k ≠ GoKind.string) :
    (FromEnvOrDefault fp (.slice k) g h envVar d opts
      = match parseSeqAux (elemParse fp po k) 0
              ((goSplit (po.envLoader envVar) po.separator).map goTrimSpace) with
        | .error e =>
          if po.defaultOnError then ((d, none), hp)
          else ((zeroOf (.slice k), some (.parseFailed envVar (typeName (.slice k)) e)), hp)
        | .ok vs => ((.sliceV k vs, none), hp))
    ∧ ∀ seg ∈ (goSplit (po.envLoader envVar) po.separator).map goTrimSpace,
        goTrimSpace seg = seg := by
  constructor
  · unfold FromEnvOrDefault
    rw [hA]
    have hbp : builtinParse fp po (.slice k) (po.envLoader envVar)
        = match parseSeqAux (elemParse fp po k) 0
                (splitAndTrim (po.envLoader envVar) po.separator) with
          | .error e => .failed e
          | .ok vs => .value (.sliceV k vs) := by
      cases k with
      | string => exact absurd rfl hk
      | bool => rfl
      | int => rfl
      | uint => rfl
      | int64 => rfl
      | uint64 => rfl
      | float64 => rfl
      | duration => rfl
      | time => rfl
      | url => rfl
    show parseWithOpts fp (.slice k) envVar d po hp = _
    unfold parseWithOpts
    rw [if_neg hs, hnm, hbp]
    unfold splitAndTrim
    cases hps : parseSeqAux (elemParse fp po k) 0
        ((goSplit (po.envLoader envVar) po.separator).map goTrimSpace) with
    | error e => rfl
    | ok vs => simp [castResult, GoVal.typeOf]
  · exact splitAndTrim_trimmed (po.envLoader envVar) po.separator

/-- C3 witness: a boolean sequence with a spaced raw string parses its
trimmed segments, and every segment passed to conversion is
trim-fixed. -/
theorem c3_nonstring_sequences_trimmed_witness :
    (FromEnvOrDefault fpFix (.slice .bool) (gFix "true, false") hFix "B"
        (.sliceV .bool []) []).fst
      = (.sliceV .bool [.boolV true, .boolV false], none) := by
  have hmain := c3_nonstring_sequences_trimmed fpFix (gFix "true, false") hFix "B"
    (.sliceV .bool []) [] (copyDefaults (gFix "true, false") hFix).1
    (copyDefaults (gFix "true, false") hFix).2 .bool rfl (by decide) rfl (by decide)
  rw [congrArg Prod.fst hmain.1]
  decide

/-- C3 counterexample: for the []string target the segments are not
trimmed — parsing "a, b" with the default separator returns a second
element " b" that still carries its leading space. -/
theorem c3_counterexample_string_slice_untrimmed :
    (FromEnvOrDefault fpFix (.slice .string) (gFix "a, b") hFix "S" (.sliceV .string [])
        []).fst
      = (.sliceV .string [.str "a", .str " b"], none)
    ∧ goTrimSpace " b" ≠ " b" := by
  exact ⟨by decide, by decide⟩

/-- C2 (amended): with fallback-on-error enabled, every parse-stage
failure — a registered custom marshaller returning an error, or any
built-in conversion failure — makes FromEnvOrDefault return the
caller-supplied default with no error; the type-stage cast failure is
excluded: it returns an error even with fallback enabled (see the
counterexample). -/
theorem c2_fallback_covers_parse_failures (fp : Foreign) (T : GoType) (g : EnvParseOpts)
    (h : Heap) (envVar : String) (d : GoVal) (opts : List EnvOpt)
    (po : EnvParseOpts) (hp : Heap)
    (hA : applyOpts opts (copyDefaults g h).1 (copyDefaults g h).2 = (none, po, hp))
    (hfb : po.defaultOnError = true)
    (hs : po.envLoader envVar ≠ "")
    (hout : (∃ m e, lookupMarshaller po hp T = some m
              ∧ m (po.envLoader envVar) = .error e)
            ∨ (lookupMarshaller po hp T = none
              ∧ ∃ e, builtinParse fp po T (po.envLoader envVar) = .failed e)) :
    FromEnvOrDefault fp T g h envVar d opts = ((d, none), hp) := by
  unfold FromEnvOrDefault
  rw [hA]
  show parseWithOpts fp T envVar d po hp = _
  unfold parseWithOpts
  rw [if_neg hs]
  rcases hout with ⟨m, e, hm, he⟩ | ⟨hm, e, hb⟩
  · simp only [hm, he, hfb]
    rfl
  · simp only [hm, hb, hfb]
    rfl

/-- C2 witness: a failing custom marshaller with fallback enabled
yields the default with no error. -/
theorem c2_fallback_covers_parse_failures_witness :
    FromEnvOrDefault fpFix (.scalar .int) (gFix "5") hFix "N" (.scalar (.intV 7))
        [.withCustomMarshaller (.scalar .int) (some (fun s => .error (.msg s))),
         .withFallbackToDefaultOnError true]
      = (((.scalar (.intV 7) : GoVal), (none : Option Err)),
         (applyOpts
            [.withCustomMarshaller (.scalar .int) (some (fun s => .error (.msg s))),
             .withFallbackToDefaultOnError true]
            (copyDefaults (gFix "5") hFix).1 (copyDefaults (gFix "5") hFix).2).2.2) := by
  have h1 : (applyOpts
      [EnvOpt.withCustomMarshaller (.scalar .int) (some (fun s => .error (.msg s))),
       EnvOpt.withFallbackToDefaultOnError true]
      (copyDefaults (gFix "5") hFix).1 (copyDefaults (gFix "5") hFix).2).1 = none := by
    decide
  have hA : applyOpts
      [EnvOpt.withCustomMarshaller (.scalar .int) (some (fun s => .error (.msg s))),
       EnvOpt.withFallbackToDefaultOnError true]
      (copyDefaults (gFix "5") hFix).1 (copyDefaults (gFix "5") hFix).2
      = (none,
         (applyOpts
            [EnvOpt.withCustomMarshaller (.scalar .int) (some (fun s => .error (.msg s))),
             EnvOpt.withFallbackToDefaultOnError true]
            (copyDefaults (gFix "5") hFix).1 (copyDefaults (gFix "5") hFix).2).2.1,
         (applyOpts
            [EnvOpt.withCustomMarshaller (.scalar .int) (some (fun s => .error (.msg s))),
             EnvOpt.withFallbackToDefaultOnError true]
            (copyDefaults (gFix "5") hFix).1 (copyDefaults (gFix "5") hFix).2).2.2) := by
    rw [← h1]
  exact c2_fallback_covers_parse_failures fpFix (.scalar .int) (gFix "5") hFix "N"
    (.scalar (.intV 7)) _ _ _ hA (by decide) (by decide)
    (Or.inl ⟨fun s => .error (.msg s), .msg "5", rfl, rfl⟩)

/-- C2 counterexample: a custom marshaller returning a value not
assignable to T (a string for target int) with fallback enabled still
returns the cast error, not the default — so the type-mismatch case is
not covered by fallback. -/
theorem c2_counterexample_type_mismatch_not_fallback :
    (FromEnvOrDefault fpFix (.scalar .int) (gFix "5") hFix "N" (.scalar (.intV 7))
        [.withCustomMarshaller (.scalar .int) (some (fun _ => .ok (.scalar (.str "boom")))),
         .withFallbackToDefaultOnError true]).fst
      = (.scalar (.intV 0), some (.castFailed "N" "int"))
    ∧ ((.scalar (.intV 0) : GoVal), (some (.castFailed "N" "int") : Option Err))
      ≠ ((.scalar (.intV 7) : GoVal), (none : Option Err)) := by
  exact ⟨by decide, by decide⟩

/-- C1 (code bug): for the scalar url.URL target, whenever url.Parse
succeeds on the non-empty raw string, FromEnvOrDefault does not return
the parsed URL — the url.URL switch branch stores the *url.URL pointer
returned by url.Parse without dereferencing it (unlike the []url.URL
branch), so the final type assertion to url.URL always fails and the
call returns the zero value with the cast error. -/
theorem c1_url_scalar_parse_returns_cast_error (fp : Foreign) (envVar raw : String)
    (d : GoVal) (u : Nat) (hraw : raw ≠ "") (hurl : fp.parseURL raw = .ok u) :
    (FromEnvOrDefault fp (.scalar .url) (gFix raw) hFix envVar d []).fst
      = (.scalar (.urlV 0), some (.castFailed envVar "url.URL")) := by
  have hstep : FromEnvOrDefault fp (.scalar .url) (gFix raw) hFix envVar d []
      = parseWithOpts fp (.scalar .url) envVar d
          (copyDefaults (gFix raw) hFix).1 (copyDefaults (gFix raw) hFix).2 := rfl
  rw [hstep]
  unfold parseWithOpts
  rw [if_neg (show ¬((copyDefaults (gFix raw) hFix).1.envLoader envVar = "") from hraw)]
  have hlm : lookupMarshaller (copyDefaults (gFix raw) hFix).1
      (copyDefaults (gFix raw) hFix).2 (.scalar .url) = none := rfl
  rw [hlm]
  have hbp : builtinParse fp (copyDefaults (gFix raw) hFix).1 (.scalar .url)
      ((copyDefaults (gFix raw) hFix).1.envLoader envVar) = .value (.urlPtr u) := by
    show outcomeOf ((fp.parseURL raw).map (fun u => .urlPtr u)) = _
    rw [hurl]
    rfl
  rw [hbp]
  rfl

/-- C1 evaluation: with a url.Parse model that succeeds, a well-formed
URL input yields the cast error rather than the parsed URL value. -/
theorem c1_url_scalar_parse_returns_cast_error_witness :
    (FromEnvOrDefault fpFix (.scalar .url) (gFix "https://example.com") hFix "SERVICE_URL"
        (.scalar (.urlV 7)) []).fst
      = (.scalar (.urlV 0), some (.castFailed "SERVICE_URL" "url.URL")) :=
  c1_url_scalar_parse_returns_cast_error fpFix "SERVICE_URL" "https://example.com"
    (.scalar (.urlV 7)) 1 (by decide) rfl

/-- Helper: formatted well-formed scalar values are never the empty
string (for the abstract stdlib kinds this is part of the inversion
property). -/
theorem goFormatVal_ne_empty (sf : ScalarFmt) {fp : Foreign} {layout : String}
    {v : GoVal} (hwf : wfRoundtrip v = true) (hinv : foreignInverts fp sf layout v) :
    goFormatVal sf layout v ≠ "" := by
  cases v with
  | scalar sv =>
    cases sv with
    | str s => simpa [wfRoundtrip, goFormatVal] using hwf
    | boolV b =>
      cases b with
      | false => show ("false" : String) ≠ ""; decide
      | true => show ("true" : String) ≠ ""; decide
    | intV n => exact goFormatInt_ne_empty n
    | uintV n => exact goFormatNat_ne_empty n
    | int64V n => exact goFormatInt_ne_empty n
    | uint64V n => exact goFormatNat_ne_empty n
    | floatV x =>
      obtain ⟨_, hne⟩ := hinv
      exact hne
    | durationV x =>
      obtain ⟨_, hne⟩ := hinv
      exact hne
    | timeV x =>
      obtain ⟨_, hne⟩ := hinv
      exact hne
    | urlV x => simp [wfRoundtrip] at hwf
  | urlPtr x => simp [wfRoundtrip] at hwf
  | nilPtr k => simp [wfRoundtrip] at hwf
  | sliceV k es => simp [wfRoundtrip] at hwf
  | customV n p => simp [wfRoundtrip] at hwf

/-- Helper: the built-in switch inverts formatting on every well-formed
scalar value (the C8 round trip at the switch level); for float64,
duration and time the inversion of the abstract stdlib pair is the
hypothesis, the time branch using the configured layout. -/
theorem builtinParse_roundtrip (fp : Foreign) (sf : ScalarFmt) (po : EnvParseOpts)
    {v : GoVal} (hwf : wfRoundtrip v = true)
    (hinv : foreignInverts fp sf po.timeLayout v) :
    builtinParse fp po v.typeOf (goFormatVal sf po.timeLayout v) = .value v := by
  cases v with
  | scalar sv =>
    cases sv with
    | str s => rfl
    | boolV b =>
      show outcomeOf ((goParseBool (goFormatBool b)).map (fun b => .scalar (.boolV b))) = _
      rw [goParseBool_roundtrip]
      rfl
    | intV n =>
      have hw : -(int64MinAbs : Int) ≤ n ∧ n ≤ (int64Max : Int) := by
        simpa [wfRoundtrip] using hwf
      show outcomeOf ((goAtoi (goFormatInt n)).map (fun n => .scalar (.intV n))) = _
      rw [show goAtoi (goFormatInt n) = .ok n from goParseInt_roundtrip "Atoi" n hw.1 hw.2]
      rfl
    | uintV n =>
      have hw : n ≤ uint64Max := by simpa [wfRoundtrip] using hwf
      show outcomeOf ((goParseUint "ParseUint" (goFormatNat n)).map
        (fun n => .scalar (.uintV n))) = _
      rw [goParseUint_roundtrip "ParseUint" n hw]
      rfl
    | int64V n =>
      have hw : -(int64MinAbs : Int) ≤ n ∧ n ≤ (int64Max : Int) := by
        simpa [wfRoundtrip] using hwf
      show outcomeOf ((goParseInt "ParseInt" (goFormatInt n)).map
        (fun n => .scalar (.int64V n))) = _
      rw [goParseInt_roundtrip "ParseInt" n hw.1 hw.2]
      rfl
    | uint64V n =>
      have hw : n ≤ uint64Max := by simpa [wfRoundtrip] using hwf
      show outcomeOf ((goParseUint "ParseUint" (goFormatNat n)).map
        (fun n => .scalar (.uint64V n))) = _
      rw [goParseUint_roundtrip "ParseUint" n hw]
      rfl
    | floatV x =>
      obtain ⟨hpar, _⟩ := hinv
      show outcomeOf ((fp.parseFloat (sf.fmtFloat x)).map
        (fun y => .scalar (.floatV y))) = _
      rw [hpar]
      rfl
    | durationV x =>
      obtain ⟨hpar, _⟩ := hinv
      show outcomeOf ((fp.parseDuration (sf.fmtDuration x)).map
        (fun y => .scalar (.durationV y))) = _
      rw [hpar]
      rfl
    | timeV x =>
      obtain ⟨hpar, _⟩ := hinv
      show outcomeOf ((fp.parseTime po.timeLayout (sf.fmtTime po.timeLayout x)).map
        (fun y => .scalar (.timeV y))) = _
      rw [hpar]
      rfl
    | urlV x => simp [wfRoundtrip] at hwf
  | urlPtr x => simp [wfRoundtrip] at hwf
  | nilPtr k => simp [wfRoundtrip] at hwf
  | sliceV k es => simp [wfRoundtrip] at hwf
  | customV n p => simp [wfRoundtrip] at hwf

/-- C8 (amended): for every supported scalar target type other than
url.URL — booleans, in-range int, uint, int64 and uint64 values,
non-empty strings, and float64, time.Duration and time.Time values
whose abstract stdlib formatter/parser pair inverts at the value (as
the real strconv.FormatFloat/ParseFloat, Duration.String/ParseDuration
and Format/Parse with the configured layout do) — formatting the value
to its standard string representation and parsing it back through
FromEnvOrDefault (with a loader returning that string, an allocated
default registry with no entry for the type, and no options) returns
an equal value with no error. Excluded with evidence: the empty string
(it formats to the empty raw string and yields the default; see the
counterexample) and the url.URL scalar (the C1 cast bug). -/
theorem c8_scalar_roundtrip (fp : Foreign) (sf : ScalarFmt) (g : EnvParseOpts) (h : Heap)
    (envVar : String) (d : GoVal) (v : GoVal) (a : Nat)
    (hwf : wfRoundtrip v = true)
    (hinv : foreignInverts fp sf g.timeLayout v)
    (hcm : g.customMarshallers = some a)
    (hload : g.envLoader envVar = goFormatVal sf g.timeLayout v)
    (hreg : h.store a v.typeOf = none) :
    (FromEnvOrDefault fp v.typeOf g h envVar d []).fst = (v, none) := by
  have hstep : FromEnvOrDefault fp v.typeOf g h envVar d []
      = parseWithOpts fp v.typeOf envVar d (copyDefaults g h).1 (copyDefaults g h).2 := rfl
  rw [hstep]
  have hcopy1 : (copyDefaults g h).1 = { g with customMarshallers := some h.next } := by
    simp [copyDefaults, hcm, Heap.alloc]
  have hcopy2 : (copyDefaults g h).2
      = ⟨fun b => if b = h.next then h.store a else h.store b, h.next + 1⟩ := by
    simp [copyDefaults, hcm, Heap.alloc]
  rw [hcopy1, hcopy2]
  unfold parseWithOpts
  rw [show ({ g with customMarshallers := some h.next } : EnvParseOpts).envLoader envVar
      = goFormatVal sf g.timeLayout v from hload]
  rw [if_neg (goFormatVal_ne_empty sf hwf hinv)]
  have hlm : lookupMarshaller { g with customMarshallers := some h.next }
      (⟨fun b => if b = h.next then h.store a else h.store b, h.next + 1⟩ : Heap)
      v.typeOf = none := by
    simp [lookupMarshaller, hreg]
  rw [hlm]
  rw [show builtinParse fp { g with customMarshallers := some h.next } v.typeOf
        (goFormatVal sf g.timeLayout v) = .value v from
      builtinParse_roundtrip fp sf { g with customMarshallers := some h.next } hwf hinv]
  simp [castResult]

/-- A Foreign fixture whose duration parser inverts the constant
duration formatter of sfFix at 5 nanoseconds. -/
def fpDur : Foreign :=
  ⟨fun s => .error (.msg s), fun _ => .ok 5,
   fun _ s => .error (.msg s), fun _ => .ok 1⟩

/-- A concrete abstract-formatter fixture. -/
def sfFix : ScalarFmt := ⟨fun _ => "f", fun _ => "5ns", fun _ _ => "t"⟩

/-- C8 witness: a time.Duration value round-trips through the stdlib
formatter/parser pair and FromEnvOrDefault. -/
theorem c8_scalar_roundtrip_witness :
    (FromEnvOrDefault fpDur (GoVal.scalar (.durationV 5)).typeOf (gFix "5ns") hFix "D"
        (.scalar (.durationV 0)) []).fst
      = (.scalar (.durationV 5), none) :=
  c8_scalar_roundtrip fpDur sfFix (gFix "5ns") hFix "D" (.scalar (.durationV 0))
    (.scalar (.durationV 5)) 0 (by decide) ⟨rfl, by decide⟩ rfl rfl rfl

/-- C8 counterexample: the string value "" formats to the empty string,
which the engine treats as absent, so parsing it back yields the
default "d", not the original value — the round trip fails for the
empty string. -/
theorem c8_counterexample_empty_string_roundtrip :
    (FromEnvOrDefault fpFix (.scalar .string)
        (gFix (goFormatVal sfFix "2006-01-02T15:04:05Z07:00" (.scalar (.str ""))))
        hFix "S" (.scalar (.str "d")) []).fst
      = (.scalar (.str "d"), none)
    ∧ ((.scalar (.str "d") : GoVal) ≠ .scalar (.str "")) := by
  exact ⟨by decide, by decide⟩

/-- C9: when the registry holds a marshaller for the target type, the
result of FromEnvOrDefault is entirely determined by that marshaller
applied to the raw string — built-in handling never runs — and a
marshaller failure is governed by fallback-on-error exactly as built-in
failures are: default with no error when enabled, the wrapped
marshaller error otherwise. -/
theorem c9_custom_marshaller_preference (fp : Foreign) (T : GoType) (g : EnvParseOpts)
    (h : Heap) (envVar : String) (d : GoVal) (opts : List EnvOpt)
    (po : EnvParseOpts) (hp : Heap) (m : Marshaller)
    (hA : applyOpts opts (copyDefaults g h).1 (copyDefaults g h).2 = (none, po, hp))
    (hs : po.envLoader envVar ≠ "")
    (hm : lookupMarshaller po hp T = some m) :
    FromEnvOrDefault fp T g h envVar d opts
      = (match m (po.envLoader envVar) with
         | .error e =>
           if po.defaultOnError then ((d, none), hp)
           else ((zeroOf T, some (.marshFailed envVar (typeName T) e)), hp)
         | .ok v =>
           if v.typeOf = T then ((v, none), hp)
           else ((zeroOf T, some (.castFailed envVar (typeName T))), hp)) := by
  unfold FromEnvOrDefault
  rw [hA]
  show parseWithOpts fp T envVar d po hp = _
  unfold parseWithOpts castResult
  rw [if_neg hs, hm]

/-- C9 witness: a registered marshaller for int produces the parsed
value, bypassing built-in handling (whose parsers would have
failed). -/
theorem c9_custom_marshaller_preference_witness :
    (FromEnvOrDefault fpFix (.scalar .int) (gFix "w") hFix "M" (.scalar (.intV 0))
        [.withCustomMarshaller (.scalar .int) (some (fun _ => .ok (.scalar (.intV 42))))]).fst
      = (.scalar (.intV 42), none) := by
  have h1 : (applyOpts
      [EnvOpt.withCustomMarshaller (.scalar .int) (some (fun _ => .ok (.scalar (.intV 42))))]
      (copyDefaults (gFix "w") hFix).1 (copyDefaults (gFix "w") hFix).2).1 = none := by
    decide
  have hA : applyOpts
      [EnvOpt.withCustomMarshaller (.scalar .int) (some (fun _ => .ok (.scalar (.intV 42))))]
      (copyDefaults (gFix "w") hFix).1 (copyDefaults (gFix "w") hFix).2
      = (none,
         (applyOpts
            [EnvOpt.withCustomMarshaller (.scalar .int)
              (some (fun _ => .ok (.scalar (.intV 42))))]
            (copyDefaults (gFix "w") hFix).1 (copyDefaults (gFix "w") hFix).2).2.1,
         (applyOpts
            [EnvOpt.withCustomMarshaller (.scalar .int)
              (some (fun _ => .ok (.scalar (.intV 42))))]
            (copyDefaults (gFix "w") hFix).1 (copyDefaults (gFix "w") hFix).2).2.2) := by
    rw [← h1]
  have hmain := c9_custom_marshaller_preference fpFix (.scalar .int) (gFix "w") hFix "M"
    (.scalar (.intV 0))
    [.withCustomMarshaller (.scalar .int) (some (fun _ => .ok (.scalar (.intV 42))))]
    _ _ (fun _ => .ok (.scalar (.intV 42))) hA (by decide) rfl
  rw [congrArg Prod.fst hmain]
  decide

end GoEnv
